import Mathlib

/-!
Shallow embedding of the AutoNewProtocolTVL pipeline.

The main program is src/newTVL2.py; one variant function from src/NewTVL2.py is
embedded as well.  Python floats are modelled as rationals (every comparison the
program performs is exact on the values involved), Python dicts as association
lists with insertion-order semantics, and the two persisted CSV files at
row granularity: a file state is either missing, unreadable (any I/O or parse
error on open/read), or holds the sequence of rows that the program's writer
produced.  The network fetch, the notification transport and the git subprocess
calls are opaque collaborators; they enter the model as explicit inputs.
-/

namespace AutoNewProtocolTVL

/-- A Python value as it appears in a fetched JSON record.  Floats are carried
as rationals, which is exact for every comparison the program performs. -/
inductive PyVal where
  | vInt (n : Int)
  | vFloat (q : ℚ)
  | vBool (b : Bool)
  | vStr (s : String)
  | vNone
deriving DecidableEq

/-- The Python test isinstance(tvl, (int, float)) from newTVL2.py lines 185 and
231.  In Python, bool is a subclass of int, so a boolean passes this test;
strings and None do not. -/
def isinstanceIntFloat : PyVal → Bool
  | .vInt _ => true
  | .vFloat _ => true
  | .vBool _ => true
  | .vStr _ => false
  | .vNone => false

/-- The numeric value used by the comparisons against TVL_THRESHOLD, for values
passing isinstanceIntFloat (Python True compares as 1 and False as 0). -/
def pyNum : PyVal → ℚ
  | .vInt n => (n : ℚ)
  | .vFloat q => q
  | .vBool b => if b then 1 else 0
  | .vStr _ => 0
  | .vNone => 0

/-- Python str.strip applied to a protocol name (newTVL2.py line 175): drop
whitespace from both ends. -/
def pyStrip (s : String) : String :=
  ⟨((s.data.dropWhile Char.isWhitespace).reverse.dropWhile Char.isWhitespace).reverse⟩

/-- TVL_THRESHOLD = 10_000_000 (newTVL2.py line 9). -/
def TVL_THRESHOLD : ℚ := 10000000

/-- CATEGORY_FILTER = "Derivatives" (newTVL2.py line 10). -/
def CATEGORY_FILTER : String := "Derivatives"

/-- One fetched protocol record, after the .get accesses of newTVL2.py lines
175-181: a missing name or category is the empty string, a missing chain is
"N/A", and a missing tvl is vNone.  The tvl field keeps its Python type. -/
structure ProtocolRecord where
  name : String
  tvl : PyVal
  category : String
  chain : String
deriving DecidableEq

/-- One value of the history dict (newTVL2.py lines 64-70 and 193-199).
Timestamps are the ISO-8601 strings the program stores; their lexicographic
order agrees with chronological order. -/
structure HistoryEntry where
  tvl : ℚ
  chain : String
  category : String
  first_seen : String
  last_seen : String
deriving DecidableEq

/-- The history dict, as an association list in Python dict insertion order. -/
abbrev History := List (String × HistoryEntry)

/-- Python dict assignment d[k] = v: replace the value in place if the key is
present, otherwise append the binding at the end. -/
def dictInsert {α : Type} : List (String × α) → String → α → List (String × α)
  | [], k, v => [(k, v)]
  | p :: m, k, v => if p.1 = k then (k, v) :: m else p :: dictInsert m k v

/-- Python dict lookup d[k] (first binding with the key). -/
def dictFind {α : Type} : List (String × α) → String → Option α
  | [], _ => none
  | p :: m, k => if p.1 = k then some p.2 else dictFind m k

/-- The history upsert of newTVL2.py lines 189-199: if the name is present,
overwrite tvl and last_seen in place (first_seen, chain, category untouched);
otherwise insert a fresh entry with first_seen = last_seen = current_time. -/
def upsertHistory (h : History) (name : String) (tvl : ℚ)
    (chain category now : String) : History :=
  match dictFind h name with
  | some e => dictInsert h name { e with tvl := tvl, last_seen := now }
  | none => dictInsert h name ⟨tvl, chain, category, now, now⟩

/-- One emitted notification (the print plus optional Telegram send of
newTVL2.py lines 203-211): the fields of the message, and the transport
outcome, none when Telegram is disabled and the send is skipped. -/
structure NotifEvent where
  name : String
  tvl : ℚ
  chain : String
  category : String
  delivered : Option Bool
deriving DecidableEq

/-- The mutable state of the record loop of newTVL2.py lines 174-214:
the alerted set, the history dict, the new_alerts set, and the trace of
notifications emitted so far. -/
structure LoopState where
  alerted : List String
  history : History
  new_alerts : List String
  notifs : List NotifEvent
deriving DecidableEq

/-- The body of the record loop (newTVL2.py lines 174-214) for one record.
The guards fire in source order: blank name, wrong category, non-numeric tvl,
tvl below threshold.  A surviving record is upserted into history, and if its
name is not yet in the alerted set a notification is emitted and the name is
added to new_alerts and alerted immediately.  The transport outcome is given
by the delivery oracle and never influences the state. -/
def processRecord (useTelegram : Bool) (delivery : String → Bool) (now : String)
    (st : LoopState) (r : ProtocolRecord) : LoopState :=
  if pyStrip r.name = "" then st
  else if r.category ≠ CATEGORY_FILTER then st
  else if ¬ isinstanceIntFloat r.tvl then st
  else if pyNum r.tvl < TVL_THRESHOLD then st
  else
    if pyStrip r.name ∈ st.alerted then
      { st with history :=
          upsertHistory st.history (pyStrip r.name) (pyNum r.tvl) r.chain r.category now }
    else
      { alerted := st.alerted ++ [pyStrip r.name]
        history :=
          upsertHistory st.history (pyStrip r.name) (pyNum r.tvl) r.chain r.category now
        new_alerts := st.new_alerts ++ [pyStrip r.name]
        notifs := st.notifs ++
          [⟨pyStrip r.name, pyNum r.tvl, r.chain, r.category,
            if useTelegram then some (delivery (pyStrip r.name)) else none⟩] }

/-- The whole record loop, folded over the fetched list in order. -/
def processRecords (useTelegram : Bool) (delivery : String → Bool) (now : String)
    (st : LoopState) (records : List ProtocolRecord) : LoopState :=
  records.foldl (processRecord useTelegram delivery now) st

/-- The per-record condition of the loop restated positively: the record
survives all four guards of newTVL2.py lines 175-186. -/
def Qualifies (r : ProtocolRecord) : Prop :=
  pyStrip r.name ≠ "" ∧ r.category = CATEGORY_FILTER ∧
    isinstanceIntFloat r.tvl = true ∧ ¬ pyNum r.tvl < TVL_THRESHOLD

instance (r : ProtocolRecord) : Decidable (Qualifies r) := by
  unfold Qualifies; infer_instance

/-- The predicate of the summary statistic (newTVL2.py lines 229-232): category
equal to the filter, numeric tvl at least the threshold, no condition on the
name.  (This path reads category with no default; a missing category is None
there and the empty string in our record model, both distinct from the filter
value, so the model is faithful.) -/
def countedAboveThreshold (r : ProtocolRecord) : Bool :=
  decide (r.category = CATEGORY_FILTER) && isinstanceIntFloat r.tvl &&
    decide (TVL_THRESHOLD ≤ pyNum r.tvl)

/-- The summary count of newTVL2.py lines 229-232. -/
def aboveThresholdCount (records : List ProtocolRecord) : Nat :=
  records.countP countedAboveThreshold

/-- The state of one persisted file: absent, present but failing on open or
parse, or holding the rows last written. -/
inductive FileState (α : Type) where
  | missing
  | unreadable
  | stored (content : α)
deriving DecidableEq

/-- The two persisted files.  The alerts file is the sequence of first-column
values of its rows; the history file is the sequence of data rows, each carrying
the name column and the remaining columns. -/
structure FS where
  alertsFile : FileState (List String)
  historyFile : FileState (List (String × HistoryEntry))
deriving DecidableEq

/-- load_previous_alerts of newTVL2.py lines 40-51: empty set when the file is
missing, empty set when opening or reading raises (the handler catches every
exception), otherwise the set of first-column values of the rows. -/
def load_previous_alerts (fs : FS) : List String :=
  match fs.alertsFile with
  | .missing => []
  | .unreadable => []
  | .stored names => names

/-- load_protocol_history of newTVL2.py lines 53-75: empty dict when the file
is missing or any exception is raised while reading or parsing, otherwise the
dict built by inserting each row in file order. -/
def load_protocol_history (fs : FS) : History :=
  match fs.historyFile with
  | .missing => []
  | .unreadable => []
  | .stored rows => rows.foldl (fun m p => dictInsert m p.1 p.2) []

/-- save_protocol_history of newTVL2.py lines 77-97: writes one row per entry by
iterating history.items() in dict order, with no sorting; returns true exactly
when the write completes.  On failure the model leaves the file unchanged. -/
def save_protocol_history (history : History) (writeOk : Bool) (fs : FS) :
    Bool × FS :=
  if writeOk then (true, { fs with historyFile := .stored history }) else (false, fs)

/-- Lexicographic comparison of character lists by code point, the order Python
uses to compare strings. -/
def charListLe : List Char → List Char → Bool
  | [], _ => true
  | _ :: _, [] => false
  | a :: as, b :: bs => if a = b then charListLe as bs else decide (a < b)

/-- Python string comparison s <= t (lexicographic by code point).  The ISO
timestamps the program stores compare chronologically under this order. -/
def pyLe (s t : String) : Bool :=
  charListLe s.data t.data

/-- pyLe as a relation, for use with the sorting library. -/
def pyLeP (s t : String) : Prop :=
  pyLe s t = true

instance : DecidableRel pyLeP := fun s t => by
  unfold pyLeP; infer_instance

instance : IsTotal String pyLeP :=
  ⟨fun a b => by
    have key : ∀ as bs : List Char,
        charListLe as bs = true ∨ charListLe bs as = true := by
      intro as
      induction as with
      | nil => intro bs; exact Or.inl rfl
      | cons x xs ih =>
        intro bs
        cases bs with
        | nil => exact Or.inr rfl
        | cons y ys =>
          by_cases hxy : x = y
          · subst hxy
            rcases ih ys with h | h
            · exact Or.inl (by simp [charListLe, h])
            · exact Or.inr (by simp [charListLe, h])
          · rcases lt_trichotomy x y with h | h | h
            · exact Or.inl (by simp [charListLe, hxy, h])
            · exact absurd h hxy
            · have hyx : ¬ y = x := fun e => hxy e.symm
              exact Or.inr (by simp [charListLe, hyx, h])
    exact key a.data b.data⟩

instance : IsTrans String pyLeP :=
  ⟨fun a b c h1 h2 => by
    have key : ∀ as bs cs : List Char, charListLe as bs = true →
        charListLe bs cs = true → charListLe as cs = true := by
      intro as
      induction as with
      | nil => intro bs cs _ _; rfl
      | cons x xs ih =>
        intro bs cs hab hbc
        cases bs with
        | nil => simp [charListLe] at hab
        | cons y ys =>
          cases cs with
          | nil => simp [charListLe] at hbc
          | cons z zs =>
            by_cases hxy : x = y <;> by_cases hyz : y = z
            · subst hxy; subst hyz
              simp only [charListLe, if_pos rfl] at hab hbc ⊢
              exact ih ys zs hab hbc
            · subst hxy
              simp only [charListLe, if_pos rfl, if_neg hyz] at hbc ⊢
              exact hbc
            · subst hyz
              simp only [charListLe, if_neg hxy, if_pos rfl] at hab ⊢
              exact hab
            · simp only [charListLe, if_neg hxy, if_neg hyz,
                decide_eq_true_eq] at hab hbc
              have hxz : x < z := lt_trans hab hbc
              have hne : ¬ x = z := ne_of_lt hxz
              simp [charListLe, hne, hxz]
    exact key a.data b.data c.data h1 h2⟩

instance : IsAntisymm String pyLeP :=
  ⟨fun a b h1 h2 => by
    have key : ∀ as bs : List Char, charListLe as bs = true →
        charListLe bs as = true → as = bs := by
      intro as
      induction as with
      | nil =>
        intro bs _ hba
        cases bs with
        | nil => rfl
        | cons y ys => simp [charListLe] at hba
      | cons x xs ih =>
        intro bs hab hba
        cases bs with
        | nil => simp [charListLe] at hab
        | cons y ys =>
          by_cases hxy : x = y
          · subst hxy
            simp only [charListLe, if_pos rfl] at hab hba
            rw [ih ys hab hba]
          · have hyx : ¬ y = x := fun e => hxy e.symm
            simp only [charListLe, if_neg hxy, if_neg hyx,
              decide_eq_true_eq] at hab hba
            exact absurd hba (not_lt_of_lt hab)
    cases a with
    | mk as =>
      cases b with
      | mk bs => exact congrArg String.mk (key as bs h1 h2)⟩

/-- The row sequence written by save_alerts (newTVL2.py line 104): the distinct
names in sorted order, Python sorted() on a set modelled by insertion sort over
the deduplicated list. -/
def save_alertsContent (alerted : List String) : List String :=
  List.insertionSort pyLeP alerted.dedup

/-- save_alerts of newTVL2.py lines 99-110: writes the sorted names, one per
row; returns true exactly when the write completes. -/
def save_alerts (alerted : List String) (writeOk : Bool) (fs : FS) : Bool × FS :=
  if writeOk then (true, { fs with alertsFile := .stored (save_alertsContent alerted) })
  else (false, fs)

/-- Outcomes of the git subprocess calls made by commit_to_github, supplied as
an input since the subprocesses are outside the program. -/
structure GitOutcome where
  configOk : Bool
  addOk : Bool
  hasChanges : Bool
  commitOk : Bool
  pushOk : Bool
deriving DecidableEq

/-- commit_to_github of newTVL2.py lines 112-146: returns False outside GitHub
Actions; inside, any failing subprocess (caught via check=True) yields False,
an empty git status yields False with nothing committed, and otherwise the
commit and push must both succeed. -/
def commit_to_github (inActions : Bool) (g : GitOutcome) : Bool :=
  if ¬ inActions then false
  else if ¬ (g.configOk && g.addOk) then false
  else if ¬ g.hasChanges then false
  else g.commitOk && g.pushOk

/-- Everything a run of check_new_protocols consumes from the outside world:
the fetch result (empty on any fetch failure, per fetch_protocols lines
148-159), the current time, the Telegram flag and transport, the CI flag and
git outcomes, and whether each of the two file writes succeeds. -/
structure RunInput where
  records : List ProtocolRecord
  now : String
  useTelegram : Bool
  delivery : String → Bool
  inActions : Bool
  git : GitOutcome
  historyWriteOk : Bool
  alertsWriteOk : Bool

/-- The observable outcome of one run: the returned boolean, the file system
afterwards, the notifications emitted, the new_alerts set, and the printed
summary count. -/
structure RunResult where
  success : Bool
  fs : FS
  notified : List NotifEvent
  new_alerts : List String
  aboveThreshold : Nat

/-- check_new_protocols of newTVL2.py lines 161-235: load both stores, abort
returning False on an empty fetch, otherwise run the record loop, save history
then alerts, attempt the GitHub commit, compute the summary count, and return
the conjunction of the two save results and the commit result.  (The code after
the return on line 235 is unreachable and not modelled.) -/
def check_new_protocols (inp : RunInput) (fs : FS) : RunResult :=
  if inp.records.isEmpty then
    { success := false, fs := fs, notified := [], new_alerts := [], aboveThreshold := 0 }
  else
    let stF := processRecords inp.useTelegram inp.delivery inp.now
      ⟨load_previous_alerts fs, load_protocol_history fs, [], []⟩ inp.records
    let hres := save_protocol_history stF.history inp.historyWriteOk fs
    let ares := save_alerts stF.alerted inp.alertsWriteOk hres.2
    { success := hres.1 && ares.1 && commit_to_github inp.inActions inp.git
      fs := ares.2
      notified := stF.notifs
      new_alerts := stF.new_alerts
      aboveThreshold := aboveThresholdCount inp.records }

/-- The exit code of the __main__ block (newTVL2.py lines 306-311). -/
def mainExitCode (inp : RunInput) (fs : FS) : Nat :=
  if (check_new_protocols inp fs).success then 0 else 1

/-- Modelled from the spec: the overall-success condition as section 4.1 step 8
words it, overall success = history-saved AND alerts-saved AND
(publish-attempted-and-succeeded OR publish-not-applicable), where the publish
step is not applicable outside the CI environment or when there is nothing to
commit. -/
def specOverallSuccess (historySaved alertsSaved inActions hasChanges publishOk : Bool) :
    Bool :=
  historySaved && alertsSaved && (if inActions && hasChanges then publishOk else true)

/-- load_previous_alerts of the variant src/NewTVL2.py lines 37-43: the missing
file is handled, but the open and read are not wrapped in any handler, so an
unreadable file raises to the caller; the error result models the propagated
exception. -/
def load_previous_alertsVariant (s : FileState (List String)) :
    Except Unit (List String) :=
  match s with
  | .missing => .ok []
  | .unreadable => .error ()
  | .stored names => .ok names

/-- The loop condition restricted to records whose normalized name is n. -/
def qualWithName (n : String) (r : ProtocolRecord) : Bool :=
  decide (Qualifies r) && decide (pyStrip r.name = n)

/-- The state of the record loop at the end of a run: the fold started from the
loaded alert set and loaded history. -/
def runLoop (inp : RunInput) (fs : FS) : LoopState :=
  processRecords inp.useTelegram inp.delivery inp.now
    ⟨load_previous_alerts fs, load_protocol_history fs, [], []⟩ inp.records

/-! ### Concrete inputs used by witnesses and counterexamples -/

/-- A file system with both files absent (a first run). -/
def emptyFS : FS := ⟨.missing, .missing⟩

/-- The record of the spec's AlphaPerp scenario. -/
def sampleRecord : ProtocolRecord :=
  ⟨"AlphaPerp", .vInt 15000000, "Derivatives", "Ethereum"⟩

/-- A record whose tvl is a numeric string at least the threshold. -/
def strTvlRecord : ProtocolRecord :=
  ⟨"StrTvl", .vStr "15000000", "Derivatives", "Ethereum"⟩

/-- A record with a whitespace-only name that passes the summary filter. -/
def blankNameRecord : ProtocolRecord :=
  ⟨"   ", .vInt 20000000, "Derivatives", "Polygon"⟩

/-- A run input for the AlphaPerp scenario: one qualifying record, Telegram off,
outside GitHub Actions, both writes succeed, all git calls would succeed. -/
def sampleInput : RunInput :=
  { records := [sampleRecord]
    now := "2026-10-12T00:00:00"
    useTelegram := false
    delivery := fun _ => false
    inActions := false
    git := ⟨true, true, true, true, true⟩
    historyWriteOk := true
    alertsWriteOk := true }

/-- The sample input with an empty fetch result. -/
def c4Input : RunInput := { sampleInput with records := [] }

/-- A file system holding previously persisted state. -/
def c4FS : FS :=
  ⟨.stored ["Old"],
    .stored [("Old", ⟨12000000, "Ethereum", "Derivatives",
      "2026-01-01T00:00:00", "2026-01-02T00:00:00"⟩)]⟩

/-- The empty loop state, for exercising the loop body directly. -/
def emptyLoopState : LoopState := ⟨[], [], [], []⟩

/-- A qualifying record for "AlphaPerp" with one tvl. -/
def dupRecordA : ProtocolRecord :=
  ⟨"AlphaPerp", .vInt 12000000, "Derivatives", "Ethereum"⟩

/-- A second record whose name strips to "AlphaPerp", with a different tvl. -/
def dupRecordB : ProtocolRecord :=
  ⟨" AlphaPerp ", .vInt 18000000, "Derivatives", "Polygon"⟩

/-- The sample input with two fetched records for the same protocol. -/
def c9Input : RunInput := { sampleInput with records := [dupRecordA, dupRecordB] }

/-- A history entry used by the serialization counterexample. -/
def c3Entry : HistoryEntry :=
  ⟨15000000, "Ethereum", "Derivatives", "2026-01-01T00:00:00",
    "2026-01-02T00:00:00"⟩

/-- A history dict holding B before A. -/
def c3HistoryBA : History := [("B", c3Entry), ("A", c3Entry)]

/-- The same bindings inserted in the opposite order. -/
def c3HistoryAB : History := [("A", c3Entry), ("B", c3Entry)]

/-! ### Dictionary lemmas -/

theorem pyLeP_refl (s : String) : pyLeP s s :=
  (total_of pyLeP s s).elim id id

theorem pyLeP_trans (a b c : String) (h1 : pyLeP a b) (h2 : pyLeP b c) :
    pyLeP a c :=
  IsTrans.trans a b c h1 h2


theorem dictFind_dictInsert {α : Type} (m : List (String × α)) (k k' : String) (v : α) :
    dictFind (dictInsert m k v) k' = if k' = k then some v else dictFind m k' := by
  induction m with
  | nil =>
    by_cases h : k' = k
    · simp [dictInsert, dictFind, h]
    · have h2 : ¬ k = k' := fun hh => h hh.symm
      simp [dictInsert, dictFind, h, h2]
  | cons p m ih =>
    by_cases hpk : p.1 = k
    · by_cases h : k' = k
      · simp [dictInsert, dictFind, hpk, h]
      · have h2 : ¬ k = k' := fun hh => h hh.symm
        have h3 : ¬ p.1 = k' := fun hh => h (hh.symm.trans hpk)
        simp [dictInsert, dictFind, hpk, h, h2, h3]
    · by_cases hpk' : p.1 = k'
      · have h : ¬ k' = k := fun hh => hpk (hpk'.trans hh)
        simp [dictInsert, dictFind, hpk, hpk', h]
      · simp [dictInsert, dictFind, hpk, hpk', ih]

theorem mem_dictInsert {α : Type} {m : List (String × α)} {k : String} {v : α}
    {p : String × α} (hp : p ∈ dictInsert m k v) : p ∈ m ∨ p = (k, v) := by
  induction m with
  | nil => simpa [dictInsert] using hp
  | cons q m ih =>
    by_cases hqk : q.1 = k
    · simp only [dictInsert, if_pos hqk, List.mem_cons] at hp
      rcases hp with h | h
      · exact Or.inr h
      · exact Or.inl (List.mem_cons_of_mem _ h)
    · simp only [dictInsert, if_neg hqk, List.mem_cons] at hp
      rcases hp with h | h
      · exact Or.inl (h ▸ List.mem_cons_self _ _)
      · rcases ih h with h' | h'
        · exact Or.inl (List.mem_cons_of_mem _ h')
        · exact Or.inr h'

theorem dictFind_mem {α : Type} {m : List (String × α)} {k : String} {v : α}
    (h : dictFind m k = some v) : (k, v) ∈ m := by
  induction m with
  | nil => simp [dictFind] at h
  | cons p m ih =>
    by_cases hpk : p.1 = k
    · simp only [dictFind, if_pos hpk, Option.some.injEq] at h
      exact List.mem_cons.mpr (Or.inl (Prod.ext_iff.mpr ⟨hpk, h⟩).symm)
    · simp only [dictFind, if_neg hpk] at h
      exact List.mem_cons_of_mem _ (ih h)

theorem dictFind_upsertHistory_of_found {h : History} {n : String} {e : HistoryEntry}
    (hf : dictFind h n = some e) (t : ℚ) (c g now : String) :
    dictFind (upsertHistory h n t c g now) n =
      some { e with tvl := t, last_seen := now } := by
  unfold upsertHistory
  rw [hf]
  simp [dictFind_dictInsert]

theorem dictFind_upsertHistory_of_not_found {h : History} {n : String}
    (hf : dictFind h n = none) (t : ℚ) (c g now : String) :
    dictFind (upsertHistory h n t c g now) n = some ⟨t, c, g, now, now⟩ := by
  unfold upsertHistory
  rw [hf]
  simp [dictFind_dictInsert]

theorem dictFind_upsertHistory_ne (h : History) {n n' : String} (hne : n' ≠ n)
    (t : ℚ) (c g now : String) :
    dictFind (upsertHistory h n t c g now) n' = dictFind h n' := by
  unfold upsertHistory
  cases hf : dictFind h n <;> simp [dictFind_dictInsert, hne]

/-! ### Characterization of one loop step -/

theorem processRecord_of_not_qualifies {r : ProtocolRecord} (hq : ¬ Qualifies r)
    (u : Bool) (d : String → Bool) (now : String) (st : LoopState) :
    processRecord u d now st r = st := by
  unfold processRecord
  split_ifs with h1 h2 h3 h4 h5 <;> try rfl
  all_goals exact absurd ⟨h1, not_not.mp h2, h3, h4⟩ hq

theorem processRecord_history (u : Bool) (d : String → Bool) (now : String)
    (st : LoopState) (r : ProtocolRecord) :
    (processRecord u d now st r).history =
      if Qualifies r then
        upsertHistory st.history (pyStrip r.name) (pyNum r.tvl) r.chain r.category now
      else st.history := by
  by_cases hq : Qualifies r
  · obtain ⟨hn, hc, hi, ht⟩ := hq
    rw [if_pos ⟨hn, hc, hi, ht⟩]
    unfold processRecord
    rw [if_neg hn, if_neg (by simp [hc]), if_neg (by simp [hi]), if_neg ht]
    split <;> rfl
  · rw [processRecord_of_not_qualifies hq, if_neg hq]

theorem processRecord_alerted (u : Bool) (d : String → Bool) (now : String)
    (st : LoopState) (r : ProtocolRecord) :
    (processRecord u d now st r).alerted =
      if Qualifies r ∧ pyStrip r.name ∉ st.alerted then
        st.alerted ++ [pyStrip r.name]
      else st.alerted := by
  by_cases hq : Qualifies r
  · obtain ⟨hn, hc, hi, ht⟩ := hq
    unfold processRecord
    rw [if_neg hn, if_neg (by simp [hc]), if_neg (by simp [hi]), if_neg ht]
    by_cases hm : pyStrip r.name ∈ st.alerted
    · rw [if_pos hm, if_neg (by simp [hm])]
    · have hq2 : Qualifies r ∧ pyStrip r.name ∉ st.alerted := ⟨⟨hn, hc, hi, ht⟩, hm⟩
      rw [if_neg hm, if_pos hq2]
  · rw [processRecord_of_not_qualifies hq, if_neg (by simp [hq])]

theorem processRecord_new_alerts (u : Bool) (d : String → Bool) (now : String)
    (st : LoopState) (r : ProtocolRecord) :
    (processRecord u d now st r).new_alerts =
      if Qualifies r ∧ pyStrip r.name ∉ st.alerted then
        st.new_alerts ++ [pyStrip r.name]
      else st.new_alerts := by
  by_cases hq : Qualifies r
  · obtain ⟨hn, hc, hi, ht⟩ := hq
    unfold processRecord
    rw [if_neg hn, if_neg (by simp [hc]), if_neg (by simp [hi]), if_neg ht]
    by_cases hm : pyStrip r.name ∈ st.alerted
    · rw [if_pos hm, if_neg (by simp [hm])]
    · have hq2 : Qualifies r ∧ pyStrip r.name ∉ st.alerted := ⟨⟨hn, hc, hi, ht⟩, hm⟩
      rw [if_neg hm, if_pos hq2]
  · rw [processRecord_of_not_qualifies hq, if_neg (by simp [hq])]

theorem processRecord_notifs (u : Bool) (d : String → Bool) (now : String)
    (st : LoopState) (r : ProtocolRecord) :
    (processRecord u d now st r).notifs =
      if Qualifies r ∧ pyStrip r.name ∉ st.alerted then
        st.notifs ++
          [⟨pyStrip r.name, pyNum r.tvl, r.chain, r.category,
            if u then some (d (pyStrip r.name)) else none⟩]
      else st.notifs := by
  by_cases hq : Qualifies r
  · obtain ⟨hn, hc, hi, ht⟩ := hq
    unfold processRecord
    rw [if_neg hn, if_neg (by simp [hc]), if_neg (by simp [hi]), if_neg ht]
    by_cases hm : pyStrip r.name ∈ st.alerted
    · rw [if_pos hm, if_neg (by simp [hm])]
    · have hq2 : Qualifies r ∧ pyStrip r.name ∉ st.alerted := ⟨⟨hn, hc, hi, ht⟩, hm⟩
      rw [if_neg hm, if_pos hq2]
  · rw [processRecord_of_not_qualifies hq, if_neg (by simp [hq])]

/-! ### Fold lemmas for the record loop -/

theorem processRecords_nil (u : Bool) (d : String → Bool) (now : String)
    (st : LoopState) : processRecords u d now st [] = st := rfl

theorem processRecords_cons (u : Bool) (d : String → Bool) (now : String)
    (st : LoopState) (r : ProtocolRecord) (rs : List ProtocolRecord) :
    processRecords u d now st (r :: rs) =
      processRecords u d now (processRecord u d now st r) rs := rfl

theorem mem_alerted_processRecords (u : Bool) (d : String → Bool) (now : String)
    {a : String} :
    ∀ (rs : List ProtocolRecord) (st : LoopState), a ∈ st.alerted →
      a ∈ (processRecords u d now st rs).alerted := by
  intro rs
  induction rs with
  | nil => intro st h; exact h
  | cons r rs ih =>
    intro st h
    rw [processRecords_cons]
    apply ih
    rw [processRecord_alerted]
    split
    · exact List.mem_append_left _ h
    · exact h

theorem qual_mem_alerted_processRecords (u : Bool) (d : String → Bool) (now : String) :
    ∀ (rs : List ProtocolRecord) (st : LoopState) (r : ProtocolRecord),
      r ∈ rs → Qualifies r →
      pyStrip r.name ∈ (processRecords u d now st rs).alerted := by
  intro rs
  induction rs with
  | nil => intro st r h; cases h
  | cons r' rs ih =>
    intro st r h hq
    rcases List.mem_cons.mp h with rfl | h'
    · rw [processRecords_cons]
      apply mem_alerted_processRecords
      rw [processRecord_alerted]
      split
      · exact List.mem_append_right _ (List.mem_singleton.mpr rfl)
      · rename_i hcond
        by_cases hm : pyStrip r.name ∈ st.alerted
        · exact hm
        · exact absurd ⟨hq, hm⟩ hcond
    · rw [processRecords_cons]
      exact ih _ _ h' hq

theorem processRecords_notifs_of_alerted (u : Bool) (d : String → Bool) (now : String) :
    ∀ (rs : List ProtocolRecord) (st : LoopState),
      (∀ r ∈ rs, Qualifies r → pyStrip r.name ∈ st.alerted) →
      (processRecords u d now st rs).notifs = st.notifs := by
  intro rs
  induction rs with
  | nil => intro st _; rfl
  | cons r rs ih =>
    intro st h
    have hcond : ¬ (Qualifies r ∧ pyStrip r.name ∉ st.alerted) := by
      rintro ⟨hq, hm⟩
      exact hm (h r (List.mem_cons_self _ _) hq)
    have halert : (processRecord u d now st r).alerted = st.alerted := by
      rw [processRecord_alerted, if_neg hcond]
    have hnot : (processRecord u d now st r).notifs = st.notifs := by
      rw [processRecord_notifs, if_neg hcond]
    rw [processRecords_cons, ih _ (fun r' hr' hq' => by
      rw [halert]
      exact h r' (List.mem_cons_of_mem _ hr') hq'), hnot]

/-! ### History invariants across the loop -/

theorem upsertHistory_inv {h : History} {now : String}
    (hi : ∀ p ∈ h, pyLeP p.2.first_seen p.2.last_seen ∧ pyLeP p.2.last_seen now)
    (n : String) (t : ℚ) (c g : String) :
    ∀ p ∈ upsertHistory h n t c g now,
      pyLeP p.2.first_seen p.2.last_seen ∧ pyLeP p.2.last_seen now := by
  intro p hp
  unfold upsertHistory at hp
  cases hf : dictFind h n with
  | some e =>
    rw [hf] at hp
    rcases mem_dictInsert hp with h' | h'
    · exact hi p h'
    · obtain ⟨he1, he2⟩ := hi (n, e) (dictFind_mem hf)
      subst h'
      exact ⟨pyLeP_trans _ _ _ he1 he2, pyLeP_refl _⟩
  | none =>
    rw [hf] at hp
    rcases mem_dictInsert hp with h' | h'
    · exact hi p h'
    · subst h'
      exact ⟨pyLeP_refl _, pyLeP_refl _⟩

theorem processRecords_history_inv (u : Bool) (d : String → Bool) (now : String) :
    ∀ (rs : List ProtocolRecord) (st : LoopState),
      (∀ p ∈ st.history, pyLeP p.2.first_seen p.2.last_seen ∧ pyLeP p.2.last_seen now) →
      ∀ p ∈ (processRecords u d now st rs).history,
        pyLeP p.2.first_seen p.2.last_seen ∧ pyLeP p.2.last_seen now := by
  intro rs
  induction rs with
  | nil => intro st h; exact h
  | cons r rs ih =>
    intro st h
    rw [processRecords_cons]
    apply ih
    rw [processRecord_history]
    split
    · exact upsertHistory_inv h _ _ _ _
    · exact h

theorem processRecords_find_mono (u : Bool) (d : String → Bool) (now : String) :
    ∀ (rs : List ProtocolRecord) (st : LoopState) (n : String) (e : HistoryEntry),
      dictFind st.history n = some e → pyLeP e.last_seen now →
      ∃ e', dictFind (processRecords u d now st rs).history n = some e' ∧
        e'.first_seen = e.first_seen ∧ pyLeP e.last_seen e'.last_seen ∧
        pyLeP e'.last_seen now := by
  intro rs
  induction rs with
  | nil =>
    intro st n e hf hle
    exact ⟨e, hf, rfl, pyLeP_refl _, hle⟩
  | cons r rs ih =>
    intro st n e hf hle
    rw [processRecords_cons]
    by_cases hq : Qualifies r
    · have hh : (processRecord u d now st r).history =
          upsertHistory st.history (pyStrip r.name) (pyNum r.tvl) r.chain r.category now := by
        rw [processRecord_history, if_pos hq]
      by_cases hn : n = pyStrip r.name
      · subst hn
        have hself := dictFind_upsertHistory_of_found hf (pyNum r.tvl) r.chain
          r.category now
        obtain ⟨e', he', h1, h2, h3⟩ := ih (processRecord u d now st r)
          (pyStrip r.name) { e with tvl := pyNum r.tvl, last_seen := now }
          (by rw [hh]; exact hself) (pyLeP_refl _)
        exact ⟨e', he', h1, pyLeP_trans _ _ _ hle h2, h3⟩
      · have : dictFind (processRecord u d now st r).history n = some e := by
          rw [hh, dictFind_upsertHistory_ne _ hn]
          exact hf
        exact ih _ n e this hle
    · have hh : (processRecord u d now st r).history = st.history := by
        rw [processRecord_history, if_neg hq]
      exact ih _ n e (by rw [hh]; exact hf) hle

theorem processRecords_find_fresh (u : Bool) (d : String → Bool) (now : String) :
    ∀ (rs : List ProtocolRecord) (st : LoopState) (n : String),
      (dictFind st.history n = none ∨
        ∃ e, dictFind st.history n = some e ∧
          e.first_seen = now ∧ e.last_seen = now) →
      (dictFind (processRecords u d now st rs).history n = none ∨
        ∃ e, dictFind (processRecords u d now st rs).history n = some e ∧
          e.first_seen = now ∧ e.last_seen = now) := by
  intro rs
  induction rs with
  | nil => intro st n h; exact h
  | cons r rs ih =>
    intro st n h
    rw [processRecords_cons]
    apply ih
    by_cases hq : Qualifies r
    · have hh : (processRecord u d now st r).history =
          upsertHistory st.history (pyStrip r.name) (pyNum r.tvl) r.chain r.category now := by
        rw [processRecord_history, if_pos hq]
      by_cases hn : n = pyStrip r.name
      · subst hn
        rcases h with h | ⟨e, he, h1, h2⟩
        · exact Or.inr ⟨_, by
            rw [hh]
            exact dictFind_upsertHistory_of_not_found h (pyNum r.tvl) r.chain
              r.category now, rfl, rfl⟩
        · exact Or.inr ⟨{ e with tvl := pyNum r.tvl, last_seen := now }, by
            rw [hh]
            exact dictFind_upsertHistory_of_found he (pyNum r.tvl) r.chain
              r.category now, h1, rfl⟩
      · rw [hh, dictFind_upsertHistory_ne _ hn]
        exact h
    · have hh : (processRecord u d now st r).history = st.history := by
        rw [processRecord_history, if_neg hq]
      rw [hh]
      exact h

/-! ### Duplicate names: first notification, last history value -/

theorem qualWithName_iff {n : String} {r : ProtocolRecord} :
    qualWithName n r = true ↔ Qualifies r ∧ pyStrip r.name = n := by
  simp [qualWithName]

theorem processRecords_singleton (u : Bool) (d : String → Bool) (now : String)
    (st : LoopState) (r : ProtocolRecord) :
    processRecords u d now st [r] = processRecord u d now st r := rfl

theorem processRecords_append (u : Bool) (d : String → Bool) (now : String)
    (st : LoopState) (l₁ l₂ : List ProtocolRecord) :
    processRecords u d now st (l₁ ++ l₂) =
      processRecords u d now (processRecords u d now st l₁) l₂ :=
  List.foldl_append _ _ _ _

theorem processRecords_find_last (u : Bool) (d : String → Bool) (now : String)
    (n : String) (rs : List ProtocolRecord) :
    ∀ (st : LoopState) (r0 : ProtocolRecord),
      (rs.filter (qualWithName n)).getLast? = some r0 →
      ∃ e', dictFind (processRecords u d now st rs).history n = some e' ∧
        e'.tvl = pyNum r0.tvl ∧ e'.last_seen = now := by
  induction rs using List.reverseRecOn with
  | nil => intro st r0 h; simp at h
  | append_singleton rs r ih =>
    intro st r0 h
    rw [List.filter_append] at h
    by_cases hq : qualWithName n r = true
    · have hfil : List.filter (qualWithName n) [r] = [r] := by
        simp [hq]
      rw [hfil, List.getLast?_concat] at h
      obtain rfl : r = r0 := by injection h
      obtain ⟨hq', hn⟩ := qualWithName_iff.mp hq
      rw [processRecords_append]
      have hh : (processRecord u d now (processRecords u d now st rs) r).history =
          upsertHistory (processRecords u d now st rs).history (pyStrip r.name)
            (pyNum r.tvl) r.chain r.category now := by
        rw [processRecord_history, if_pos hq']
      rw [processRecords_singleton, hh, ← hn]
      cases hf : dictFind (processRecords u d now st rs).history (pyStrip r.name) with
      | some e =>
        exact ⟨{ e with tvl := pyNum r.tvl, last_seen := now },
          dictFind_upsertHistory_of_found hf (pyNum r.tvl) r.chain r.category now,
          rfl, rfl⟩
      | none =>
        exact ⟨⟨pyNum r.tvl, r.chain, r.category, now, now⟩,
          dictFind_upsertHistory_of_not_found hf (pyNum r.tvl) r.chain r.category now,
          rfl, rfl⟩
    · have hfil : List.filter (qualWithName n) [r] = [] := by
        simp [List.filter, hq]
      rw [hfil, List.append_nil] at h
      obtain ⟨e', he', h1, h2⟩ := ih st r0 h
      refine ⟨e', ?_, h1, h2⟩
      rw [processRecords_append, processRecords_singleton]
      by_cases hq' : Qualifies r
      · have hn : ¬ pyStrip r.name = n := fun hh =>
          hq (qualWithName_iff.mpr ⟨hq', hh⟩)
        have hne : n ≠ pyStrip r.name := fun hh => hn hh.symm
        rw [processRecord_history, if_pos hq', dictFind_upsertHistory_ne _ hne]
        exact he'
      · rw [processRecord_history, if_neg hq']
        exact he'

theorem processRecords_notifs_filter_alerted (u : Bool) (d : String → Bool)
    (now : String) (n : String) :
    ∀ (rs : List ProtocolRecord) (st : LoopState), n ∈ st.alerted →
      (processRecords u d now st rs).notifs.filter (fun e => decide (e.name = n)) =
        st.notifs.filter (fun e => decide (e.name = n)) := by
  intro rs
  induction rs with
  | nil => intro st _; rfl
  | cons r rs ih =>
    intro st hmem
    rw [processRecords_cons]
    have halert : n ∈ (processRecord u d now st r).alerted := by
      rw [processRecord_alerted]
      split
      · exact List.mem_append_left _ hmem
      · exact hmem
    rw [ih _ halert, processRecord_notifs]
    split
    · rename_i hcond
      have hne : ¬ pyStrip r.name = n := fun hh => hcond.2 (hh ▸ hmem)
      rw [List.filter_append]
      simp [hne]
    · rfl

theorem processRecords_notifs_first (u : Bool) (d : String → Bool) (now : String)
    (n : String) :
    ∀ (rs : List ProtocolRecord) (st : LoopState) (r0 : ProtocolRecord),
      n ∉ st.alerted → rs.find? (qualWithName n) = some r0 →
      (processRecords u d now st rs).notifs.filter (fun e => decide (e.name = n)) =
        st.notifs.filter (fun e => decide (e.name = n)) ++
          [⟨n, pyNum r0.tvl, r0.chain, r0.category,
            if u then some (d n) else none⟩] := by
  intro rs
  induction rs with
  | nil => intro st r0 _ h; simp at h
  | cons r rs ih =>
    intro st r0 hmem h
    rw [processRecords_cons]
    by_cases hq : qualWithName n r = true
    · rw [List.find?_cons_of_pos _ hq] at h
      obtain rfl : r = r0 := by injection h
      obtain ⟨hq', hn⟩ := qualWithName_iff.mp hq
      have hcond : Qualifies r ∧ pyStrip r.name ∉ st.alerted :=
        ⟨hq', by rw [hn]; exact hmem⟩
      have halert : n ∈ (processRecord u d now st r).alerted := by
        rw [processRecord_alerted, if_pos hcond, hn]
        exact List.mem_append_right _ (List.mem_singleton.mpr rfl)
      rw [processRecords_notifs_filter_alerted u d now n rs _ halert,
        processRecord_notifs, if_pos hcond, List.filter_append, hn]
      simp
    · rw [List.find?_cons_of_neg _ hq] at h
      have hstep : (processRecord u d now st r).notifs.filter
            (fun e => decide (e.name = n)) =
          st.notifs.filter (fun e => decide (e.name = n)) := by
        rw [processRecord_notifs]
        split
        · rename_i hcond
          have hne : ¬ pyStrip r.name = n := fun hh =>
            hq (qualWithName_iff.mpr ⟨hcond.1, hh⟩)
          rw [List.filter_append]
          simp [hne]
        · rfl
      have halert : n ∉ (processRecord u d now st r).alerted := by
        rw [processRecord_alerted]
        split
        · rename_i hcond
          intro hin
          rcases List.mem_append.mp hin with hin | hin
          · exact hmem hin
          · have : pyStrip r.name = n := (List.mem_singleton.mp hin).symm
            exact hq (qualWithName_iff.mpr ⟨hcond.1, this⟩)
        · exact hmem
      rw [ih _ r0 halert h, hstep]

/-! ### Pipeline characterizations -/

theorem mem_save_alertsContent {a : String} {l : List String} :
    a ∈ save_alertsContent l ↔ a ∈ l := by
  unfold save_alertsContent
  rw [(List.perm_insertionSort pyLeP l.dedup).mem_iff]
  exact List.mem_dedup

theorem check_notified_of_ne (inp : RunInput) (fs : FS) (h : ¬ inp.records = []) :
    (check_new_protocols inp fs).notified = (runLoop inp fs).notifs := by
  unfold check_new_protocols
  rw [if_neg (by simpa using h)]
  try rfl

theorem check_new_alerts_of_ne (inp : RunInput) (fs : FS) (h : ¬ inp.records = []) :
    (check_new_protocols inp fs).new_alerts = (runLoop inp fs).new_alerts := by
  unfold check_new_protocols
  rw [if_neg (by simpa using h)]
  try rfl

theorem check_above_of_ne (inp : RunInput) (fs : FS) (h : ¬ inp.records = []) :
    (check_new_protocols inp fs).aboveThreshold = aboveThresholdCount inp.records := by
  unfold check_new_protocols
  rw [if_neg (by simpa using h)]
  try rfl

theorem check_fs_of_ne (inp : RunInput) (fs : FS) (h : ¬ inp.records = []) :
    (check_new_protocols inp fs).fs =
      (save_alerts (runLoop inp fs).alerted inp.alertsWriteOk
        (save_protocol_history (runLoop inp fs).history inp.historyWriteOk fs).2).2 := by
  unfold check_new_protocols
  rw [if_neg (by simpa using h)]
  try rfl

theorem check_success_of_ne (inp : RunInput) (fs : FS) (h : ¬ inp.records = []) :
    (check_new_protocols inp fs).success =
      ((save_protocol_history (runLoop inp fs).history inp.historyWriteOk fs).1 &&
        (save_alerts (runLoop inp fs).alerted inp.alertsWriteOk
          (save_protocol_history (runLoop inp fs).history inp.historyWriteOk fs).2).1 &&
        commit_to_github inp.inActions inp.git) := by
  unfold check_new_protocols
  rw [if_neg (by simpa using h)]
  try rfl

theorem check_alertsFile (inp : RunInput) (fs : FS) (h : ¬ inp.records = [])
    (hw : inp.alertsWriteOk = true) :
    (check_new_protocols inp fs).fs.alertsFile =
      .stored (save_alertsContent (runLoop inp fs).alerted) := by
  rw [check_fs_of_ne inp fs h]
  simp [save_alerts, hw]

theorem check_historyFile (inp : RunInput) (fs : FS) (h : ¬ inp.records = [])
    (hw : inp.historyWriteOk = true) :
    (check_new_protocols inp fs).fs.historyFile = .stored (runLoop inp fs).history := by
  rw [check_fs_of_ne inp fs h]
  cases hwa : inp.alertsWriteOk <;>
    simp [save_alerts, save_protocol_history, hw]

theorem processRecords_transport_independent (u₁ u₂ : Bool)
    (d₁ d₂ : String → Bool) (now : String) :
    ∀ (rs : List ProtocolRecord) (st₁ st₂ : LoopState),
      st₁.alerted = st₂.alerted → st₁.history = st₂.history →
      st₁.new_alerts = st₂.new_alerts →
      (processRecords u₁ d₁ now st₁ rs).alerted =
          (processRecords u₂ d₂ now st₂ rs).alerted ∧
        (processRecords u₁ d₁ now st₁ rs).history =
          (processRecords u₂ d₂ now st₂ rs).history ∧
        (processRecords u₁ d₁ now st₁ rs).new_alerts =
          (processRecords u₂ d₂ now st₂ rs).new_alerts := by
  intro rs
  induction rs with
  | nil => intro st₁ st₂ h1 h2 h3; exact ⟨h1, h2, h3⟩
  | cons r rs ih =>
    intro st₁ st₂ h1 h2 h3
    rw [processRecords_cons, processRecords_cons]
    apply ih
    · rw [processRecord_alerted, processRecord_alerted, h1]
    · rw [processRecord_history, processRecord_history, h2]
    · rw [processRecord_new_alerts, processRecord_new_alerts, h1, h3]

/-! ### Claim theorems -/

/-- C2: a fetched record whose tvl is a boolean or a string never qualifies:
the loop body leaves the state unchanged, so the record is excluded from
notification and from the history upsert, and the summary count does not count
it, even when the value is numerically coercible and at least the threshold;
only int and float tvl values can qualify. -/
theorem C2_bool_or_string_tvl_never_qualifies (u : Bool) (d : String → Bool)
    (now : String) (st : LoopState) (r : ProtocolRecord)
    (h : (∃ b, r.tvl = PyVal.vBool b) ∨ (∃ s, r.tvl = PyVal.vStr s)) :
    processRecord u d now st r = st ∧ countedAboveThreshold r = false ∧
      ¬ Qualifies r := by
  have hbool : ∀ b : Bool, pyNum (PyVal.vBool b) < TVL_THRESHOLD := by
    intro b
    cases b <;> norm_num [pyNum, TVL_THRESHOLD]
  have hnq : ¬ Qualifies r := by
    rcases h with ⟨b, hb⟩ | ⟨s, hs⟩
    · rintro ⟨_, _, _, ht⟩
      exact ht (by rw [hb]; exact hbool b)
    · rintro ⟨_, _, hi, _⟩
      rw [hs] at hi
      simp [isinstanceIntFloat] at hi
  refine ⟨processRecord_of_not_qualifies hnq u d now st, ?_, hnq⟩
  rcases h with ⟨b, hb⟩ | ⟨s, hs⟩
  · have hlt : ¬ TVL_THRESHOLD ≤ pyNum r.tvl := by
      rw [hb]
      exact not_le.mpr (hbool b)
    simp [countedAboveThreshold, hlt]
  · simp [countedAboveThreshold, hs, isinstanceIntFloat]

/-- Witness for C2 at a record whose tvl is the string "15000000". -/
theorem C2_witness :
    ((∃ b, strTvlRecord.tvl = PyVal.vBool b) ∨
      (∃ s, strTvlRecord.tvl = PyVal.vStr s)) ∧
    (processRecord false (fun _ => false) "t" emptyLoopState strTvlRecord =
        emptyLoopState ∧
      countedAboveThreshold strTvlRecord = false ∧ ¬ Qualifies strTvlRecord) :=
  ⟨Or.inr ⟨"15000000", rfl⟩,
    C2_bool_or_string_tvl_never_qualifies false (fun _ => false) "t" emptyLoopState
      strTvlRecord (Or.inr ⟨"15000000", rfl⟩)⟩

/-- C4: when the fetch fails or returns no records (fetch_protocols returns the
empty list in both cases) the run aborts: the returned flag is false, neither
persisted file changes, nothing is notified, and the process exits 1. -/
theorem C4_empty_fetch_aborts_without_saving (inp : RunInput) (fs : FS)
    (h : inp.records = []) :
    (check_new_protocols inp fs).success = false ∧
      (check_new_protocols inp fs).fs = fs ∧
      (check_new_protocols inp fs).notified = [] ∧
      mainExitCode inp fs = 1 := by
  have he : inp.records.isEmpty = true := by simp [h]
  refine ⟨?_, ?_, ?_, ?_⟩ <;>
    simp [check_new_protocols, mainExitCode, he]

/-- Witness for C4: an empty fetch against a populated file system. -/
theorem C4_witness :
    c4Input.records = [] ∧
    ((check_new_protocols c4Input c4FS).success = false ∧
      (check_new_protocols c4Input c4FS).fs = c4FS ∧
      (check_new_protocols c4Input c4FS).notified = [] ∧
      mainExitCode c4Input c4FS = 1) :=
  ⟨rfl, C4_empty_fetch_aborts_without_saving c4Input c4FS rfl⟩

/-- C10: the summary count is computed over the raw fetched records with no
name normalization: a record with an empty or whitespace-only name is counted
whenever its category matches and its tvl is numeric and at least the
threshold, although the loop excludes it from notification and from the
history update, so the count can exceed the number of history entries touched
in the run. -/
theorem C10_blank_names_counted_but_skipped (u : Bool) (d : String → Bool)
    (now : String) (st : LoopState) (r : ProtocolRecord)
    (hname : pyStrip r.name = "") (hcount : countedAboveThreshold r = true) :
    processRecord u d now st r = st ∧
      ∀ rs, aboveThresholdCount (r :: rs) = aboveThresholdCount rs + 1 := by
  constructor
  · apply processRecord_of_not_qualifies
    rintro ⟨hn, _, _, _⟩
    exact hn hname
  · intro rs
    simp [aboveThresholdCount, List.countP_cons, hcount]

/-- Witness for C10 at a whitespace-named record above the threshold. -/
theorem C10_witness :
    pyStrip blankNameRecord.name = "" ∧
    countedAboveThreshold blankNameRecord = true ∧
    (processRecord false (fun _ => false) "t" emptyLoopState blankNameRecord =
        emptyLoopState ∧
      ∀ rs, aboveThresholdCount (blankNameRecord :: rs) =
        aboveThresholdCount rs + 1) :=
  ⟨by decide, by decide,
    C10_blank_names_counted_but_skipped false (fun _ => false) "t" emptyLoopState
      blankNameRecord (by decide) (by decide)⟩

/-- C5: running the pipeline twice in succession on the same fetched record
list produces zero notifications on the second run: every name that qualified
in the first run is in the alert set persisted by the first run's alert save,
which the second run loads. -/
theorem C5_second_run_emits_no_notifications (inp1 inp2 : RunInput) (fs : FS)
    (hrec : inp2.records = inp1.records) (hw : inp1.alertsWriteOk = true) :
    (check_new_protocols inp2 (check_new_protocols inp1 fs).fs).notified = [] := by
  by_cases h1 : inp1.records = []
  · have h2 : inp2.records.isEmpty = true := by simp [hrec, h1]
    simp [check_new_protocols, h2]
  · have h2 : ¬ inp2.records = [] := by rw [hrec]; exact h1
    rw [check_notified_of_ne _ _ h2]
    unfold runLoop
    apply processRecords_notifs_of_alerted
    intro r hr hq
    show pyStrip r.name ∈ load_previous_alerts (check_new_protocols inp1 fs).fs
    have hload : load_previous_alerts (check_new_protocols inp1 fs).fs =
        save_alertsContent (runLoop inp1 fs).alerted := by
      unfold load_previous_alerts
      rw [check_alertsFile inp1 fs h1 hw]
    rw [hload, mem_save_alertsContent]
    unfold runLoop
    apply qual_mem_alerted_processRecords
    · rw [← hrec]
      exact hr
    · exact hq

/-- Witness for C5: running the AlphaPerp scenario twice from an empty file
system. -/
theorem C5_witness :
    sampleInput.records = sampleInput.records ∧
    sampleInput.alertsWriteOk = true ∧
    (check_new_protocols sampleInput
      (check_new_protocols sampleInput emptyFS).fs).notified = [] :=
  ⟨rfl, rfl, C5_second_run_emits_no_notifications sampleInput sampleInput emptyFS
    rfl rfl⟩

/-- C7: a qualifying record whose normalized name is not in the loaded alert
set has its name added to the alert set and written to the saved alert file,
regardless of the Telegram flag and of every delivery outcome, and the saved
file contains every loaded name, so no name is ever removed. -/
theorem C7_alerted_grows_regardless_of_delivery (inp : RunInput) (fs : FS)
    (r : ProtocolRecord) (hr : r ∈ inp.records) (hq : Qualifies r)
    (_hnew : pyStrip r.name ∉ load_previous_alerts fs)
    (hw : inp.alertsWriteOk = true) :
    ∃ saved, (check_new_protocols inp fs).fs.alertsFile = FileState.stored saved ∧
      pyStrip r.name ∈ saved ∧
      (∀ a ∈ load_previous_alerts fs, a ∈ saved) ∧
      ∀ u' d', (check_new_protocols
          { inp with useTelegram := u', delivery := d' } fs).fs =
        (check_new_protocols inp fs).fs := by
  have hne : ¬ inp.records = [] := List.ne_nil_of_mem hr
  refine ⟨save_alertsContent (runLoop inp fs).alerted,
    check_alertsFile inp fs hne hw, ?_, ?_, ?_⟩
  · rw [mem_save_alertsContent]
    exact qual_mem_alerted_processRecords _ _ _ _ _ _ hr hq
  · intro a ha
    rw [mem_save_alertsContent]
    exact mem_alerted_processRecords _ _ _ _ _ ha
  · intro u' d'
    have hne' : ¬ ({ inp with useTelegram := u', delivery := d' } : RunInput).records
        = [] := hne
    rw [check_fs_of_ne _ _ hne', check_fs_of_ne _ _ hne]
    unfold runLoop
    obtain ⟨ha, hh, -⟩ := processRecords_transport_independent u' inp.useTelegram
      d' inp.delivery inp.now inp.records
      ⟨load_previous_alerts fs, load_protocol_history fs, [], []⟩
      ⟨load_previous_alerts fs, load_protocol_history fs, [], []⟩ rfl rfl rfl
    rw [ha, hh]

/-- Witness for C7 on the AlphaPerp scenario from an empty file system. -/
theorem C7_witness :
    sampleRecord ∈ sampleInput.records ∧ Qualifies sampleRecord ∧
    pyStrip sampleRecord.name ∉ load_previous_alerts emptyFS ∧
    sampleInput.alertsWriteOk = true ∧
    (∃ saved, (check_new_protocols sampleInput emptyFS).fs.alertsFile =
        FileState.stored saved ∧
      pyStrip sampleRecord.name ∈ saved ∧
      (∀ a ∈ load_previous_alerts emptyFS, a ∈ saved) ∧
      ∀ u' d', (check_new_protocols
          { sampleInput with useTelegram := u', delivery := d' } emptyFS).fs =
        (check_new_protocols sampleInput emptyFS).fs) :=
  ⟨by decide, by decide, by decide, rfl,
    C7_alerted_grows_regardless_of_delivery sampleInput emptyFS sampleRecord
      (by decide) (by decide) (by decide) rfl⟩

/-- C6: a name present in the loaded history keeps its first_seen while its
last_seen never decreases; a name absent from the loaded history appears in the
saved history only with first_seen = last_seen; every saved entry satisfies
first_seen <= last_seen; and a name observed above threshold ends the run with
last_seen equal to the run's current time and tvl equal to the last observed
value.  Chained over successive runs (each run loads what the previous one
saved) this gives immutable first_seen and monotone last_seen. -/
theorem C6_history_timestamps (inp : RunInput) (fs : FS)
    (hne : ¬ inp.records = []) (hw : inp.historyWriteOk = true)
    (hinv : ∀ p ∈ load_protocol_history fs,
      pyLeP p.2.first_seen p.2.last_seen ∧ pyLeP p.2.last_seen inp.now) :
    ∃ saved, (check_new_protocols inp fs).fs.historyFile = FileState.stored saved ∧
      (∀ n e, dictFind (load_protocol_history fs) n = some e →
        ∃ e', dictFind saved n = some e' ∧ e'.first_seen = e.first_seen ∧
          pyLeP e.last_seen e'.last_seen) ∧
      (∀ n e', dictFind (load_protocol_history fs) n = none →
        dictFind saved n = some e' → e'.first_seen = e'.last_seen) ∧
      (∀ p ∈ saved, pyLeP p.2.first_seen p.2.last_seen) ∧
      (∀ n r0, (inp.records.filter (qualWithName n)).getLast? = some r0 →
        ∃ e', dictFind saved n = some e' ∧ e'.tvl = pyNum r0.tvl ∧
          e'.last_seen = inp.now) := by
  refine ⟨(runLoop inp fs).history, check_historyFile inp fs hne hw,
    ?_, ?_, ?_, ?_⟩
  · intro n e hf
    have hle : pyLeP e.last_seen inp.now := (hinv (n, e) (dictFind_mem hf)).2
    obtain ⟨e', he', h1, h2, h3⟩ := processRecords_find_mono inp.useTelegram
      inp.delivery inp.now inp.records
      ⟨load_previous_alerts fs, load_protocol_history fs, [], []⟩ n e hf hle
    exact ⟨e', he', h1, h2⟩
  · intro n e' hnone hfind
    unfold runLoop at hfind
    rcases processRecords_find_fresh inp.useTelegram inp.delivery inp.now
        inp.records ⟨load_previous_alerts fs, load_protocol_history fs, [], []⟩ n
        (Or.inl hnone) with h | ⟨e, he, h1, h2⟩
    · rw [h] at hfind
      cases hfind
    · rw [he] at hfind
      obtain rfl : e = e' := by injection hfind
      rw [h1, h2]
  · intro p hp
    unfold runLoop at hp
    exact (processRecords_history_inv inp.useTelegram inp.delivery inp.now
      inp.records ⟨load_previous_alerts fs, load_protocol_history fs, [], []⟩
      hinv p hp).1
  · intro n r0 hlast
    unfold runLoop
    exact processRecords_find_last inp.useTelegram inp.delivery inp.now n
      inp.records ⟨load_previous_alerts fs, load_protocol_history fs, [], []⟩
      r0 hlast

/-- Witness for C6: the AlphaPerp record against a file system already holding
one history row with earlier timestamps. -/
theorem C6_witness :
    ¬ sampleInput.records = [] ∧ sampleInput.historyWriteOk = true ∧
    (∀ p ∈ load_protocol_history c4FS,
      pyLeP p.2.first_seen p.2.last_seen ∧ pyLeP p.2.last_seen sampleInput.now) ∧
    (∃ saved, (check_new_protocols sampleInput c4FS).fs.historyFile =
        FileState.stored saved ∧
      (∀ n e, dictFind (load_protocol_history c4FS) n = some e →
        ∃ e', dictFind saved n = some e' ∧ e'.first_seen = e.first_seen ∧
          pyLeP e.last_seen e'.last_seen) ∧
      (∀ n e', dictFind (load_protocol_history c4FS) n = none →
        dictFind saved n = some e' → e'.first_seen = e'.last_seen) ∧
      (∀ p ∈ saved, pyLeP p.2.first_seen p.2.last_seen) ∧
      (∀ n r0, (sampleInput.records.filter (qualWithName n)).getLast? = some r0 →
        ∃ e', dictFind saved n = some e' ∧ e'.tvl = pyNum r0.tvl ∧
          e'.last_seen = sampleInput.now)) :=
  ⟨by decide, rfl, by decide,
    C6_history_timestamps sampleInput c4FS (by decide) rfl (by decide)⟩

/-- C9: when the fetched list contains two or more qualifying records with the
same normalized name, none previously alerted, exactly one notification is
emitted for that name, carrying the fields of the first such record, while the
saved history entry for the name carries the tvl of the last such record. -/
theorem C9_duplicates_notify_first_save_last (inp : RunInput) (fs : FS)
    (n : String) (hk : 2 ≤ (inp.records.filter (qualWithName n)).length)
    (hnew : n ∉ load_previous_alerts fs) (hw : inp.historyWriteOk = true) :
    (∃ r1, inp.records.find? (qualWithName n) = some r1 ∧
      (check_new_protocols inp fs).notified.filter (fun e => decide (e.name = n)) =
        [⟨n, pyNum r1.tvl, r1.chain, r1.category,
          if inp.useTelegram then some (inp.delivery n) else none⟩]) ∧
    (∃ r2 saved e', (inp.records.filter (qualWithName n)).getLast? = some r2 ∧
      (check_new_protocols inp fs).fs.historyFile = FileState.stored saved ∧
      dictFind saved n = some e' ∧ e'.tvl = pyNum r2.tvl ∧
      e'.last_seen = inp.now) := by
  have hfn : ¬ inp.records.filter (qualWithName n) = [] := by
    intro h
    rw [h] at hk
    simp at hk
  have hne : ¬ inp.records = [] := by
    intro h
    rw [h] at hfn
    simp [List.filter] at hfn
  constructor
  · obtain ⟨x, hx⟩ := List.exists_mem_of_ne_nil _ hfn
    have hx' := List.mem_filter.mp hx
    have hsome : (inp.records.find? (qualWithName n)).isSome := by
      rw [List.find?_isSome]
      exact ⟨x, hx'.1, hx'.2⟩
    obtain ⟨r1, hr1⟩ := Option.isSome_iff_exists.mp hsome
    refine ⟨r1, hr1, ?_⟩
    rw [check_notified_of_ne _ _ hne]
    unfold runLoop
    rw [processRecords_notifs_first inp.useTelegram inp.delivery inp.now n
      inp.records ⟨load_previous_alerts fs, load_protocol_history fs, [], []⟩
      r1 hnew hr1]
    simp
  · obtain ⟨r2, hr2⟩ := Option.isSome_iff_exists.mp
      (List.getLast?_isSome.mpr hfn)
    obtain ⟨e', he', h1, h2⟩ := processRecords_find_last inp.useTelegram
      inp.delivery inp.now n inp.records
      ⟨load_previous_alerts fs, load_protocol_history fs, [], []⟩ r2 hr2
    exact ⟨r2, (runLoop inp fs).history, e', hr2,
      check_historyFile inp fs hne hw, he', h1, h2⟩

/-- Witness for C9: two records for "AlphaPerp" in one fetch, nothing
previously alerted. -/
theorem C9_witness :
    2 ≤ (c9Input.records.filter (qualWithName "AlphaPerp")).length ∧
    "AlphaPerp" ∉ load_previous_alerts emptyFS ∧
    c9Input.historyWriteOk = true ∧
    ((∃ r1, c9Input.records.find? (qualWithName "AlphaPerp") = some r1 ∧
      (check_new_protocols c9Input emptyFS).notified.filter
          (fun e => decide (e.name = "AlphaPerp")) =
        [⟨"AlphaPerp", pyNum r1.tvl, r1.chain, r1.category,
          if c9Input.useTelegram then some (c9Input.delivery "AlphaPerp")
          else none⟩]) ∧
    (∃ r2 saved e',
      (c9Input.records.filter (qualWithName "AlphaPerp")).getLast? = some r2 ∧
      (check_new_protocols c9Input emptyFS).fs.historyFile =
        FileState.stored saved ∧
      dictFind saved "AlphaPerp" = some e' ∧ e'.tvl = pyNum r2.tvl ∧
      e'.last_seen = c9Input.now)) :=
  ⟨by decide, by decide, rfl,
    C9_duplicates_notify_first_save_last c9Input emptyFS "AlphaPerp"
      (by decide) (by decide) rfl⟩

/-- Counterexample for C3: save_protocol_history writes rows in dict insertion
order, not sorted by name; two histories with identical contents but different
insertion order serialize to different file contents, and the written row
order "B", "A" is not sorted. -/
theorem C3_counterexample :
    c3HistoryBA.toFinset = c3HistoryAB.toFinset ∧
    dictFind c3HistoryBA "A" = dictFind c3HistoryAB "A" ∧
    dictFind c3HistoryBA "B" = dictFind c3HistoryAB "B" ∧
    (save_protocol_history c3HistoryBA true emptyFS).2 ≠
      (save_protocol_history c3HistoryAB true emptyFS).2 ∧
    (save_protocol_history c3HistoryBA true emptyFS).2.historyFile =
      FileState.stored c3HistoryBA ∧
    c3HistoryBA.map Prod.fst = ["B", "A"] ∧
    ¬ pyLeP "B" "A" := by
  decide

/-- C3 amended: save_alerts writes the alert names sorted lexicographically, so
any two alert sets with equal contents produce identical file contents; but
save_protocol_history writes its rows in the map's insertion order with no
sorting, so history maps with equal contents and different insertion order can
serialize differently. -/
theorem C3_alerts_sorted_history_insertion_order :
    (∀ l : List String, List.Sorted pyLeP (save_alertsContent l)) ∧
    (∀ l₁ l₂ : List String, l₁.toFinset = l₂.toFinset →
      save_alertsContent l₁ = save_alertsContent l₂) ∧
    (∀ (h : History) (fs : FS),
      (save_protocol_history h true fs).2.historyFile = FileState.stored h) := by
  refine ⟨?_, ?_, ?_⟩
  · intro l
    exact List.sorted_insertionSort pyLeP l.dedup
  · intro l₁ l₂ hset
    have hperm : List.Perm l₁.dedup l₂.dedup :=
      List.toFinset_eq_iff_perm_dedup.mp hset
    have hps : List.Perm (save_alertsContent l₁) (save_alertsContent l₂) :=
      ((List.perm_insertionSort pyLeP l₁.dedup).trans hperm).trans
        (List.perm_insertionSort pyLeP l₂.dedup).symm
    exact List.eq_of_perm_of_sorted hps (List.sorted_insertionSort _ _)
      (List.sorted_insertionSort _ _)
  · intro h fs
    simp [save_protocol_history]

/-- Witness for the amended C3: two equal alert sets written identically. -/
theorem C3_witness :
    (["B", "A"] : List String).toFinset = (["A", "B", "A"] : List String).toFinset ∧
    save_alertsContent ["B", "A"] = save_alertsContent ["A", "B", "A"] :=
  ⟨by decide,
    C3_alerts_sorted_history_insertion_order.2.1 ["B", "A"] ["A", "B", "A"]
      (by decide)⟩

/-- C1 fails on the code: commit_to_github returns False outside the CI
environment, and check_new_protocols conjoins that value into its result, so a
non-CI run in which both saves succeed still returns False and the process
exits 1, although the specification's success condition (publish not
applicable) is true for the same run. -/
theorem C1_skipped_publish_reported_as_failure :
    (check_new_protocols sampleInput emptyFS).success = false ∧
    mainExitCode sampleInput emptyFS = 1 ∧
    (save_protocol_history (runLoop sampleInput emptyFS).history
      sampleInput.historyWriteOk emptyFS).1 = true ∧
    (save_alerts (runLoop sampleInput emptyFS).alerted sampleInput.alertsWriteOk
      (save_protocol_history (runLoop sampleInput emptyFS).history
        sampleInput.historyWriteOk emptyFS).2).1 = true ∧
    sampleInput.inActions = false ∧
    commit_to_github sampleInput.inActions sampleInput.git = false ∧
    specOverallSuccess true true sampleInput.inActions sampleInput.git.hasChanges
      (commit_to_github sampleInput.inActions sampleInput.git) = true := by
  decide

/-- C8: the loaders of newTVL2.py return the empty default on a missing or
unreadable file, but the variant load_previous_alerts of NewTVL2.py handles
only the missing-file case and propagates the exception when the file exists
and opening or reading it fails. -/
theorem C8_variant_propagates_failure :
    load_previous_alerts ⟨FileState.unreadable, FileState.missing⟩ = [] ∧
    load_previous_alerts ⟨FileState.missing, FileState.missing⟩ = [] ∧
    load_protocol_history ⟨FileState.missing, FileState.unreadable⟩ = [] ∧
    load_protocol_history ⟨FileState.missing, FileState.missing⟩ = [] ∧
    load_previous_alertsVariant FileState.unreadable = Except.error () ∧
    load_previous_alertsVariant FileState.missing = Except.ok [] :=
  ⟨rfl, rfl, rfl, rfl, rfl, rfl⟩

end AutoNewProtocolTVL
